import Mathlib

/-!
Verification of the configuration-resolution module of the repository
(`src/lib/config/index.js`): the source-precedence merge, platform/token
validation, repository autodiscovery with deduplication, mergeable-option
child merging (`mergeChildConfig`) and stage filtering (`filterConfig`).

JavaScript values are embedded as the inductive `JValue`; a JS object is an
association list of key/value pairs in which the first binding for a key
shadows later ones (object spread `{...a, ...b}` therefore prepends `b`'s
bindings).  JS exceptions are embedded as `Except String`.
-/

set_option autoImplicit false

namespace RenovateConfig

/-- A JavaScript runtime value: string, boolean, integer number, `null`,
array, or plain object (association list of fields).  Numbers in this module
are only compared for truthiness and strict equality, so `Int` suffices. -/
inductive JValue where
  | str : String → JValue
  | bool : Bool → JValue
  | num : Int → JValue
  | null : JValue
  | list : List JValue → JValue
  | obj : List (String × JValue) → JValue
  deriving Repr

/-- A configuration object: an association list from option name to value.
Lookup takes the first binding, so later object spreads prepend. -/
abbrev Config := List (String × JValue)

/-- An environment (`process.env`-like): a map from variable name to string. -/
abbrev Env := List (String × String)

/-- Property read `cfg[k]`: the first binding for `k`, `none` = `undefined`. -/
def cfgGet : Config → String → Option JValue
  | [], _ => none
  | p :: rest, k => if p.1 == k then some p.2 else cfgGet rest k

/-- Remove every binding for `k` (JS `delete cfg[k]`). -/
def cfgErase : Config → String → Config
  | [], _ => []
  | p :: rest, k => if p.1 == k then cfgErase rest k else p :: cfgErase rest k

/-- Property write `cfg[k] = v`. -/
def cfgSet (c : Config) (k : String) (v : JValue) : Config :=
  (k, v) :: cfgErase c k

/-- Object spread `{...a, ...b}`: `b`'s bindings shadow `a`'s. -/
def spread (a b : Config) : Config :=
  b ++ a

/-- Environment variable read `env.K`. -/
def envGet : Env → String → Option String
  | [], _ => none
  | p :: rest, k => if p.1 == k then some p.2 else envGet rest k

/-- JS truthiness of a value: `false`, `0`, `""` and `null` are falsy;
arrays and objects (even empty ones) are truthy. -/
def truthy : JValue → Bool
  | .str s => s ≠ ""
  | .bool b => b
  | .num n => n ≠ 0
  | .null => false
  | .list _ => true
  | .obj _ => true

/-- JS truthiness of a property read (`undefined` is falsy). -/
def truthyOpt : Option JValue → Bool
  | none => false
  | some v => truthy v

/-- JS truthiness of an environment variable (`undefined` and `""` falsy). -/
def envTruthy (env : Env) (k : String) : Bool :=
  match envGet env k with
  | none => false
  | some s => s ≠ ""

/-- JS strict equality `===` restricted to the shapes this module compares.
Two distinct array/object values compare unequal: `===` on objects is
reference equality, and the values compared here (configured repository
entries vs. freshly fetched discovered entries) are never the same
reference. -/
def jsStrictEq : JValue → JValue → Bool
  | .str s, .str t => s == t
  | .bool a, .bool b => a == b
  | .num a, .num b => a == b
  | .null, .null => true
  | _, _ => false

/-- `cfg.platform === "name"`: a property read compared to a string literal. -/
def optStrictEqStr (o : Option JValue) (s : String) : Bool :=
  match o with
  | some v => jsStrictEq v (.str s)
  | none => false

/-- String coercion used by the template literal in the unsupported-platform
error message.  Array elements join with `","`; a plain object prints as
`"[object Object]"`. -/
def jsToDisplay : JValue → String
  | .str s => s
  | .bool b => if b then "true" else "false"
  | .num n => toString n
  | .null => "null"
  | .obj _ => "[object Object]"
  | .list xs => String.intercalate "," (xs.attach.map (fun x => jsToDisplay x.1))
decreasing_by
  simp only [JValue.list.sizeOf_spec]
  have := List.sizeOf_lt_of_mem x.2
  omega

/-- An entry of the Option Registry (`definitions.getOptions()`), which is
external to this file's source: name, type, stage and mergeable flag. -/
structure OptionDef where
  name : String
  otype : String
  stage : String
  mergeable : Bool
  deriving Repr, DecidableEq

/-- `x || []` as used on option values in `mergeChildConfig`. -/
def jsOrEmptyList (o : Option JValue) : JValue :=
  match o with
  | some v => if truthy v then v else .list []
  | none => .list []

/-- `a.concat(b)` for the value shapes `mergeChildConfig` produces: array
receivers append (flattening an array argument), string receivers
concatenate.  Other receivers would throw `TypeError` in JS; the registry
only marks list- and object-typed options mergeable, so they are not
modelled. -/
def jsConcat : JValue → JValue → JValue
  | .list xs, .list ys => .list (xs ++ ys)
  | .list xs, v => .list (xs ++ [v])
  | .str s, .str t => .str (s ++ t)
  | a, _ => a

/-- The fields a value contributes when spread into an object literal.
Strings and arrays would contribute index keys in JS; the object-typed
mergeable options this path serves only ever hold plain objects, so
non-objects contribute nothing here (as scalars do in JS). -/
def jsFields : JValue → Config
  | .obj fs => fs
  | _ => []

/-- `{...parentConfig[name], ...childConfig[name]}`. -/
def jsSpreadVals (a b : Option JValue) : JValue :=
  .obj (spread (jsFields ((a).getD .null)) (jsFields ((b).getD .null)))

/-! ## The source functions of `src/lib/config/index.js` -/

/-- `repoName(repo)`: the `repository` field if the entry is an object with
that own property, otherwise the entry itself.
`Object.prototype.hasOwnProperty.call(null, ...)` throws a `TypeError` in
JS, hence the `Except`. -/
def repoName (repo : JValue) : Except String JValue :=
  match repo with
  | .null => .error "TypeError: Cannot convert undefined or null to object"
  | .obj fields =>
    match cfgGet fields "repository" with
    | some v => .ok v
    | none => .ok repo
  | v => .ok v

/-- `config.repositories.find(r => repoName(r) === newRepoName)`: scans in
order, stopping at the first match; `repoName` may throw on a `null`
entry. -/
def findConfigured (repos : List JValue) (name : JValue) : Except String (Option JValue) :=
  match repos with
  | [] => .ok none
  | r :: rest => do
    let rn ← repoName r
    if jsStrictEq rn name then .ok (some r) else findConfigured rest name

/-- The autodiscovery deduplication loop (`for (const repo of discovered)`),
run against the current `config.repositories` value.  When the configured
list already has an entry with the discovered repo's identifier the
discovered duplicate is dropped; otherwise the discovered entry is pushed.
A non-array `config.repositories` throws (`.find`/`.push` are missing), as
in JS.  When `repoName(repo)` is falsy, `configuredRepo` is falsy and the
entry is pushed without scanning. -/
def mergeDiscovered (repositories : JValue) (discovered : List JValue) :
    Except String JValue :=
  match discovered with
  | [] => .ok repositories
  | repo :: rest => do
    let newRepoName ← repoName repo
    match repositories with
    | .list reposL => do
      let configuredRepo ←
        if truthy newRepoName then findConfigured reposL newRepoName
        else pure none
      match configuredRepo with
      | some _ => mergeDiscovered (.list reposL) rest
      | none => mergeDiscovered (.list (reposL ++ [repo])) rest
    | _ => .error "TypeError: config.repositories.find is not a function"

/-- The list the platform branches of the autodiscovery block would fetch
(`githubApi.getRepos` / `gitlabApi.getRepos` / `vstsApi.getRepos` are
external collaborators; their responses are passed in as `gh`, `gl`,
`vs`).  Outside the three platform branches `discovered` stays empty
(unreachable after validation). -/
def discoveredList (config : Config) (gh gl vs : List JValue) : List JValue :=
  if optStrictEqStr (cfgGet config "platform") "github" then gh
  else if optStrictEqStr (cfgGet config "platform") "gitlab" then gl
  else if optStrictEqStr (cfgGet config "platform") "vsts" then vs
  else []

/-- The platform/token validation block: each supported platform requires a
truthy `token` option or its platform-specific environment variable; any
other `platform` value is an unsupported-platform error. -/
def checkPlatformToken (env : Env) (config : Config) : Except String Unit :=
  if optStrictEqStr (cfgGet config "platform") "github" then
    if !truthyOpt (cfgGet config "token") && !envTruthy env "GITHUB_TOKEN" then
      .error "You need to supply a GitHub token."
    else .ok ()
  else if optStrictEqStr (cfgGet config "platform") "gitlab" then
    if !truthyOpt (cfgGet config "token") && !envTruthy env "GITLAB_TOKEN" then
      .error "You need to supply a GitLab token."
    else .ok ()
  else if optStrictEqStr (cfgGet config "platform") "vsts" then
    if !truthyOpt (cfgGet config "token") && !envTruthy env "VSTS_TOKEN" then
      .error "You need to supply a VSTS token."
    else .ok ()
  else
    .error ("Unsupported platform: " ++
      jsToDisplay ((cfgGet config "platform").getD .null) ++ ".")

/-- Per-repository preset resolution: only non-null, non-array objects are
passed through `resolveConfigPresets` (`rcp`); bare entries pass through. -/
def resolveRepoEntry (rcp : Config → Config) : JValue → JValue
  | .obj fields => .obj (rcp fields)
  | v => v

/-- `if (Array.isArray(config.repositories) && config.repositories.length)`
then map every entry through per-repository preset resolution. -/
def resolveRepos (rcp : Config → Config) (config : Config) : Config :=
  match cfgGet config "repositories" with
  | some (.list repos) =>
    if repos.isEmpty then config
    else cfgSet config "repositories" (.list (repos.map (resolveRepoEntry rcp)))
  | _ => config

/-- The tail of `parseConfigs` after the autodiscovery block: per-repository
preset resolution, then `delete config.logFile; delete config.logFileLevel`. -/
def finishParse (rcp : Config → Config) (config : Config) : Except String Config :=
  .ok (cfgErase (cfgErase (resolveRepos rcp config) "logFile") "logFileLevel")

/-- The four-source merge `{...defaultConfig, ...fileConfig, ...cliConfig,
...envConfig}` of `parseConfigs`. -/
def mergedSources (defaultConfig fileConfig cliConfig envConfig : Config) : Config :=
  spread (spread (spread defaultConfig fileConfig) cliConfig) envConfig

/-- `parseConfigs(env, argv)`.  The four source loaders, the preset resolver
`rcp` and the three platform repository listings are external collaborators
and enter as parameters; logging calls are effect-free on the
configuration and are omitted.  When autodiscovery finds no repository the
function returns `config` early, skipping the final log-key deletion. -/
def parseConfigs (env : Env) (defaultConfig fileConfig cliConfig envConfig : Config)
    (rcp : Config → Config) (gh gl vs : List JValue) : Except String Config :=
  let config := rcp (mergedSources defaultConfig fileConfig cliConfig envConfig)
  match checkPlatformToken env config with
  | .error m => .error m
  | .ok _ =>
    if truthyOpt (cfgGet config "autodiscover") then
      let discovered := discoveredList config gh gl vs
      if discovered.isEmpty then
        .ok config
      else
        match mergeDiscovered ((cfgGet config "repositories").getD .null) discovered with
        | .error m => .error m
        | .ok newRepos => finishParse rcp (cfgSet config "repositories" newRepos)
    else finishParse rcp config

/-- The mergeable-option pass of `mergeChildConfig`: iterate the Option
Registry in order, and for each mergeable option whose key is truthy in
both parent and child, overwrite the key in the evolving `config` with the
list concatenation (list-typed) or the object spread (otherwise). -/
def mergeOptions (parentConfig childConfig : Config) :
    List OptionDef → Config → Config
  | [], config => config
  | option :: rest, config =>
    let config :=
      if option.mergeable && truthyOpt (cfgGet childConfig option.name)
          && truthyOpt (cfgGet parentConfig option.name) then
        if option.otype == "list" then
          cfgSet config option.name
            (jsConcat (jsOrEmptyList (cfgGet parentConfig option.name))
              (jsOrEmptyList (cfgGet config option.name)))
        else
          cfgSet config option.name
            (jsSpreadVals (cfgGet parentConfig option.name)
              (cfgGet childConfig option.name))
      else config
    mergeOptions parentConfig childConfig rest config

/-- `mergeChildConfig(parentConfig, childConfig)`: a falsy (absent) child
returns the parent unchanged; otherwise spread the child over the parent
and run the mergeable-option pass over the Option Registry `options`
(`definitions.getOptions()`, an external collaborator). -/
def mergeChildConfig (options : List OptionDef) (parentConfig : Config)
    (childConfig : Option Config) : Config :=
  match childConfig with
  | none => parentConfig
  | some child => mergeOptions parentConfig child options (spread parentConfig child)

/-- The ordered stage list of `filterConfig`. -/
def stages : List String :=
  ["global", "repository", "packageFile", "depType", "package", "branch", "pr"]

/-- `Array.prototype.indexOf`: index of the first occurrence, `-1` if absent. -/
def jsIndexOf : List String → String → Int
  | [], _ => -1
  | x :: xs, s =>
    if x == s then 0
    else
      let r := jsIndexOf xs s
      if r == -1 then -1 else r + 1

/-- `filterConfig(inputConfig, targetStage)`: delete every registry option
whose declared stage has an index in `stages` that is not `-1` and is
strictly below the target stage's index. -/
def filterConfig (options : List OptionDef) (inputConfig : Config)
    (targetStage : String) : Config :=
  let targetIndex := jsIndexOf stages targetStage
  options.foldl
    (fun outputConfig option =>
      let optionIndex := jsIndexOf stages option.stage
      if optionIndex != -1 && decide (optionIndex < targetIndex) then
        cfgErase outputConfig option.name
      else outputConfig)
    inputConfig

/-- The names `filterConfig` deletes at a given target stage (the keys whose
`delete` statement executes). -/
def removedNames (options : List OptionDef) (targetStage : String) : List String :=
  (options.filter
    (fun option =>
      jsIndexOf stages option.stage != -1 &&
      decide (jsIndexOf stages option.stage < jsIndexOf stages targetStage))).map
    OptionDef.name

/-- Whether `filterConfig` at `targetStage` executes a `delete` for key `k`:
some registry option is named `k`, has a stage occurring in `stages`, and
that stage's index is strictly below the target's. -/
def removesKey (options : List OptionDef) (targetStage : String) (k : String) : Bool :=
  options.any fun option =>
    (option.name == k) &&
      (jsIndexOf stages option.stage != -1 &&
        decide (jsIndexOf stages option.stage < jsIndexOf stages targetStage))

/-! ## Spec-side definitions (for refinement comparison) -/

/-- From the spec: "the merged value equals the value from the
highest-precedence source that defines it (env > CLI > file > defaults)". -/
def specHighestPrecedence (d f c e : Config) (k : String) : Option JValue :=
  match cfgGet e k with
  | some v => some v
  | none =>
    match cfgGet c k with
    | some v => some v
    | none =>
      match cfgGet f k with
      | some v => some v
      | none => cfgGet d k

/-- How many of the four sources define the key. -/
def sourcesDefining (d f c e : Config) (k : String) : Nat :=
  (if (cfgGet d k).isSome then 1 else 0) + (if (cfgGet f k).isSome then 1 else 0) +
    (if (cfgGet c k).isSome then 1 else 0) + (if (cfgGet e k).isSome then 1 else 0)

/-- From the spec: a credential is available when the `token` option is set
(to a truthy, i.e. non-empty, value) or the platform's environment
variable is. -/
def tokenAvailable (env : Env) (config : Config) (envKey : String) : Prop :=
  truthyOpt (cfgGet config "token") = true ∨ envTruthy env envKey = true

/-- From the spec: the fatal-validation condition — the resolved `platform`
is none of {github, gitlab, vsts}, or it is one of them but neither a
`token` option nor that platform's environment credential is present. -/
def specValidationError (env : Env) (config : Config) : Prop :=
  (cfgGet config "platform" ≠ some (.str "github") ∧
   cfgGet config "platform" ≠ some (.str "gitlab") ∧
   cfgGet config "platform" ≠ some (.str "vsts"))
  ∨ (cfgGet config "platform" = some (.str "github") ∧
      ¬tokenAvailable env config "GITHUB_TOKEN")
  ∨ (cfgGet config "platform" = some (.str "gitlab") ∧
      ¬tokenAvailable env config "GITLAB_TOKEN")
  ∨ (cfgGet config "platform" = some (.str "vsts") ∧
      ¬tokenAvailable env config "VSTS_TOKEN")

/-- The autodiscovery block is free of `TypeError`s: whenever autodiscovery
is requested, `config.repositories` is an array without `null` entries and
the platform listing returns no `null` entries. -/
def safeAutodiscover (config : Config) (gh gl vs : List JValue) : Prop :=
  truthyOpt (cfgGet config "autodiscover") = true →
    (∃ l, cfgGet config "repositories" = some (.list l) ∧ JValue.null ∉ l) ∧
      JValue.null ∉ discoveredList config gh gl vs

/-! ## Lemmas on the configuration-object primitives -/

theorem cfgGet_append (a b : Config) (k : String) :
    cfgGet (a ++ b) k = (cfgGet a k).orElse (fun _ => cfgGet b k) := by
  induction a with
  | nil => simp [cfgGet, Option.orElse]
  | cons p rest ih =>
    by_cases h : p.1 = k
    · simp [cfgGet, h, Option.orElse]
    · simpa [cfgGet, h] using ih

theorem cfgGet_spread (a b : Config) (k : String) :
    cfgGet (spread a b) k = (cfgGet b k).orElse (fun _ => cfgGet a k) :=
  cfgGet_append b a k

theorem cfgGet_erase_self (c : Config) (k : String) :
    cfgGet (cfgErase c k) k = none := by
  induction c with
  | nil => rfl
  | cons p rest ih =>
    by_cases h : p.1 = k
    · simpa [cfgErase, h] using ih
    · simpa [cfgErase, cfgGet, h] using ih

theorem cfgGet_erase_ne (c : Config) (k k' : String) (h : k' ≠ k) :
    cfgGet (cfgErase c k) k' = cfgGet c k' := by
  induction c with
  | nil => rfl
  | cons p rest ih =>
    by_cases hp : p.1 = k
    · simpa [cfgErase, cfgGet, hp, Ne.symm h] using ih
    · by_cases hk' : p.1 = k'
      · simp [cfgErase, cfgGet, hp, hk', h]
      · simpa [cfgErase, cfgGet, hp, hk'] using ih

theorem cfgGet_set_self (c : Config) (k : String) (v : JValue) :
    cfgGet (cfgSet c k v) k = some v := by
  simp [cfgSet, cfgGet]

theorem cfgGet_set_ne (c : Config) (k k' : String) (v : JValue) (h : k' ≠ k) :
    cfgGet (cfgSet c k v) k' = cfgGet c k' := by
  simp only [cfgSet, cfgGet]
  rw [if_neg (by simp [Ne.symm h])]
  exact cfgGet_erase_ne c k k' h

/-! ## C1: source precedence of the four-way merge -/

/-- C1: in `parseConfigs`, for any option key set by more than one of the
four sources (defaults, file, CLI, env), the merged configuration
`{...defaultConfig, ...fileConfig, ...cliConfig, ...envConfig}` holds the
value from the highest-precedence source that defines the key, with
precedence env > CLI > file > defaults, key by key. -/
theorem mergedSources_precedence (d f c e : Config) (k : String)
    (_h : 2 ≤ sourcesDefining d f c e k) :
    cfgGet (mergedSources d f c e) k = specHighestPrecedence d f c e k := by
  unfold mergedSources spread
  simp only [cfgGet_append]
  unfold specHighestPrecedence
  cases cfgGet e k <;> cases cfgGet c k <;> cases cfgGet f k <;>
    simp [Option.orElse]

/-- Witness for C1 at a concrete doubly-defined key. -/
theorem mergedSources_precedence_witness :
    2 ≤ sourcesDefining [("a", .num 1)] [] [] [("a", .num 2)] "a" ∧
      cfgGet (mergedSources [("a", .num 1)] [] [] [("a", .num 2)]) "a" =
        specHighestPrecedence [("a", .num 1)] [] [] [("a", .num 2)] "a" :=
  ⟨by decide, mergedSources_precedence [("a", .num 1)] [] [] [("a", .num 2)] "a" (by decide)⟩

/-! ## C9: merging with an absent child -/

theorem mergeOptions_empty_child (parent : Config) (opts : List OptionDef)
    (cfg : Config) : mergeOptions parent [] opts cfg = cfg := by
  induction opts generalizing cfg with
  | nil => rfl
  | cons o rest ih => simpa [mergeOptions, cfgGet, truthyOpt] using ih cfg

/-- C9: `mergeChildConfig(parent, undefined)` returns the parent itself,
and an empty child object also leaves the parent unchanged. -/
theorem mergeChildConfig_absent_child (options : List OptionDef)
    (parentConfig : Config) :
    mergeChildConfig options parentConfig none = parentConfig ∧
      mergeChildConfig options parentConfig (some []) = parentConfig := by
  refine ⟨rfl, ?_⟩
  show mergeOptions parentConfig [] options (spread parentConfig []) = parentConfig
  simpa [spread] using mergeOptions_empty_child parentConfig options parentConfig

/-! ## `jsIndexOf` and `filterConfig` lemmas -/

theorem jsIndexOf_neg_or_nonneg (l : List String) (s : String) :
    jsIndexOf l s = -1 ∨ 0 ≤ jsIndexOf l s := by
  induction l with
  | nil => exact Or.inl rfl
  | cons x xs ih =>
    by_cases h : x = s
    · right; simp [jsIndexOf, h]
    · rcases ih with h1 | h1 <;> simp [jsIndexOf, h, h1]
      omega

theorem jsIndexOf_eq_neg_one_of_not_mem (l : List String) (s : String)
    (h : s ∉ l) : jsIndexOf l s = -1 := by
  induction l with
  | nil => rfl
  | cons x xs ih =>
    have hx : x ≠ s := fun he => h (he ▸ List.mem_cons_self x xs)
    have hs : s ∉ xs := fun hm => h (List.mem_cons_of_mem x hm)
    simp [jsIndexOf, hx, ih hs]

/-- The `delete`-condition of `filterConfig` is false when the target stage
is unknown (`indexOf` gives `-1`). -/
theorem filter_cond_false_of_unknown (o : OptionDef) (t : String)
    (ht : jsIndexOf stages t = -1) :
    (jsIndexOf stages o.stage != -1 &&
      decide (jsIndexOf stages o.stage < jsIndexOf stages t)) = false := by
  rw [ht]
  rcases jsIndexOf_neg_or_nonneg stages o.stage with h | h
  · simp [h]
  · have : ¬(jsIndexOf stages o.stage < -1) := by omega
    simp [this]

/-- C10: calling `filterConfig` with a target stage that is not one of the
seven known stage names resolves the target index to `-1` and removes no
key: the result is the input configuration. -/
theorem filterConfig_unknown_stage (options : List OptionDef) (cfg : Config)
    (targetStage : String) (h : targetStage ∉ stages) :
    jsIndexOf stages targetStage = -1 ∧
      filterConfig options cfg targetStage = cfg := by
  have ht := jsIndexOf_eq_neg_one_of_not_mem stages targetStage h
  refine ⟨ht, ?_⟩
  unfold filterConfig
  induction options generalizing cfg with
  | nil => rfl
  | cons o rest ih =>
    rw [List.foldl_cons]
    simp only [filter_cond_false_of_unknown o targetStage ht, Bool.false_eq_true,
      if_false]
    exact ih cfg

/-- Witness for C10 at the unknown stage name `"repo"`. -/
theorem filterConfig_unknown_stage_witness :
    jsIndexOf stages "repo" = -1 ∧
      filterConfig [⟨"schedule", "list", "package", true⟩]
        [("schedule", .list [])] "repo" = [("schedule", .list [])] :=
  filterConfig_unknown_stage [⟨"schedule", "list", "package", true⟩]
    [("schedule", .list [])] "repo" (by decide)

/-- Key-level characterisation of `filterConfig`: a key reads as deleted
exactly when some registry option with that name qualifies for removal. -/
theorem filterConfig_get (options : List OptionDef) (cfg : Config)
    (targetStage k : String) :
    cfgGet (filterConfig options cfg targetStage) k =
      if removesKey options targetStage k then none else cfgGet cfg k := by
  unfold filterConfig removesKey
  induction options generalizing cfg with
  | nil => simp
  | cons o rest ih =>
    rw [List.foldl_cons, List.any_cons]
    rcases hcond : (jsIndexOf stages o.stage != -1 &&
        decide (jsIndexOf stages o.stage < jsIndexOf stages targetStage)) with _ | _
    · rw [if_neg (by simp [hcond])]
      rw [ih cfg]
      simp [hcond]
    · rw [if_pos hcond]
      rw [ih (cfgErase cfg o.name)]
      by_cases hname : o.name = k
      · subst hname
        simp [hcond, cfgGet_erase_self]
      · rw [cfgGet_erase_ne cfg o.name k (Ne.symm hname)]
        simp [hcond, hname]

/-- C7: `filterConfig` removes exactly the keys of registry options whose
declared stage occurs in the stage list strictly before the target stage;
keys of options with unknown stages, with stage index at or after the
target, and keys not in the registry at all read back unchanged. -/
theorem filterConfig_characterization (options : List OptionDef) (cfg : Config)
    (targetStage k : String) :
    cfgGet (filterConfig options cfg targetStage) k =
      if ∃ o ∈ options, o.name = k ∧ jsIndexOf stages o.stage ≠ -1 ∧
          jsIndexOf stages o.stage < jsIndexOf stages targetStage
      then none else cfgGet cfg k := by
  rw [filterConfig_get]
  have hiff : removesKey options targetStage k = true ↔
      (∃ o ∈ options, o.name = k ∧ jsIndexOf stages o.stage ≠ -1 ∧
        jsIndexOf stages o.stage < jsIndexOf stages targetStage) := by
    simp [removesKey, List.any_eq_true, Bool.and_eq_true, bne_iff_ne,
      decide_eq_true_eq, beq_iff_eq, and_assoc]
  by_cases h : removesKey options targetStage k
  · rw [if_pos h, if_pos (hiff.mp h)]
  · rw [if_neg h, if_neg (fun hp => h (hiff.mpr hp))]

/-! ## C8: stage-filter monotonicity -/

theorem mem_removedNames (options : List OptionDef) (t k : String) :
    k ∈ removedNames options t ↔
      ∃ o ∈ options, o.name = k ∧ jsIndexOf stages o.stage ≠ -1 ∧
        jsIndexOf stages o.stage < jsIndexOf stages t := by
  simp only [removedNames, List.mem_map, List.mem_filter, Bool.and_eq_true,
    bne_iff_ne, decide_eq_true_eq]
  constructor
  · rintro ⟨o, ⟨ho, hne, hlt⟩, hk⟩
    exact ⟨o, ho, hk, hne, hlt⟩
  · rintro ⟨o, ho, hk, hne, hlt⟩
    exact ⟨o, ⟨ho, hne, hlt⟩, hk⟩

theorem removesKey_iff_mem_removedNames (options : List OptionDef) (t k : String) :
    removesKey options t k = true ↔ k ∈ removedNames options t := by
  rw [mem_removedNames]
  simp only [removesKey, List.any_eq_true, Bool.and_eq_true, bne_iff_ne,
    decide_eq_true_eq, beq_iff_eq]

/-- C8: with `package` strictly earlier than `pr` in the stage order, the
key set `filterConfig` removes at target `pr` strictly contains the set it
removes at target `package`, provided the registry has an option staged at
`package` or at the intermediate stage `branch`; and filtering at `pr`
deletes exactly the keys of that removal set. -/
theorem filterConfig_monotone (options : List OptionDef)
    (hnodup : (options.map OptionDef.name).Nodup)
    (hex : ∃ o ∈ options, o.stage = "package" ∨ o.stage = "branch") :
    (∀ k, k ∈ removedNames options "package" → k ∈ removedNames options "pr") ∧
      (∃ k, k ∈ removedNames options "pr" ∧ k ∉ removedNames options "package") ∧
      ∀ cfg k, cfgGet (filterConfig options cfg "pr") k =
        if k ∈ removedNames options "pr" then none else cfgGet cfg k := by
  have hpkg : jsIndexOf stages "package" = 4 := by decide
  have hpr : jsIndexOf stages "pr" = 6 := by decide
  refine ⟨?_, ?_, ?_⟩
  · intro k hk
    rw [mem_removedNames] at hk ⊢
    obtain ⟨o, ho, hk, hne, hlt⟩ := hk
    exact ⟨o, ho, hk, hne, by omega⟩
  · obtain ⟨o₀, ho₀, hstage⟩ := hex
    have hidx : jsIndexOf stages o₀.stage = 4 ∨ jsIndexOf stages o₀.stage = 5 := by
      rcases hstage with h | h <;> rw [h] <;> decide
    refine ⟨o₀.name, ?_, ?_⟩
    · rw [mem_removedNames]
      exact ⟨o₀, ho₀, rfl, by omega, by omega⟩
    · rw [mem_removedNames]
      rintro ⟨o', ho', hname, hne, hlt⟩
      have : o' = o₀ := List.inj_on_of_nodup_map hnodup ho' ho₀ hname
      subst this
      omega
  · intro cfg k
    rw [filterConfig_get]
    by_cases h : removesKey options "pr" k
    · rw [if_pos h, if_pos ((removesKey_iff_mem_removedNames options "pr" k).mp h)]
    · rw [if_neg h,
        if_neg (fun hp => h ((removesKey_iff_mem_removedNames options "pr" k).mpr hp))]

/-- Witness for C8 on a one-option registry staged at `package`. -/
theorem filterConfig_monotone_witness :
    (∀ k, k ∈ removedNames [⟨"schedule", "list", "package", true⟩] "package" →
        k ∈ removedNames [⟨"schedule", "list", "package", true⟩] "pr") ∧
      (∃ k, k ∈ removedNames [⟨"schedule", "list", "package", true⟩] "pr" ∧
        k ∉ removedNames [⟨"schedule", "list", "package", true⟩] "package") ∧
      ∀ cfg k,
        cfgGet (filterConfig [⟨"schedule", "list", "package", true⟩] cfg "pr") k =
          if k ∈ removedNames [⟨"schedule", "list", "package", true⟩] "pr" then none
          else cfgGet cfg k :=
  filterConfig_monotone [⟨"schedule", "list", "package", true⟩] (by decide)
    ⟨⟨"schedule", "list", "package", true⟩, by decide, Or.inl rfl⟩

/-! ## C6: mergeable-option semantics of `mergeChildConfig` -/

theorem mergeOptions_append (parent child : Config) (l₁ l₂ : List OptionDef)
    (cfg : Config) :
    mergeOptions parent child (l₁ ++ l₂) cfg =
      mergeOptions parent child l₂ (mergeOptions parent child l₁ cfg) := by
  induction l₁ generalizing cfg with
  | nil => rfl
  | cons o rest ih =>
    rw [List.cons_append]
    show mergeOptions parent child (rest ++ l₂) _ = _
    rw [ih]
    rfl

theorem mergeOptions_get_of_not_mem (parent child : Config)
    (opts : List OptionDef) (cfg : Config) (k : String)
    (h : ∀ o ∈ opts, o.name ≠ k) :
    cfgGet (mergeOptions parent child opts cfg) k = cfgGet cfg k := by
  induction opts generalizing cfg with
  | nil => rfl
  | cons o rest ih =>
    show cfgGet (mergeOptions parent child rest _) k = _
    rw [ih _ (fun o' ho' => h o' (List.mem_cons_of_mem o ho'))]
    have hk : k ≠ o.name := Ne.symm (h o (List.mem_cons_self o rest))
    split
    · split <;> rw [cfgGet_set_ne _ _ _ _ hk]
    · rfl

/-- The value `mergeChildConfig` gives a mergeable option's key when the
key is truthy in both parent and child: the list concatenation for
list-typed options, the object spread otherwise. -/
theorem mergeChildConfig_get_mergeable (options : List OptionDef)
    (parent child : Config) (o : OptionDef)
    (hnodup : (options.map OptionDef.name).Nodup) (ho : o ∈ options)
    (hm : o.mergeable = true)
    (hc : truthyOpt (cfgGet child o.name) = true)
    (hp : truthyOpt (cfgGet parent o.name) = true) :
    cfgGet (mergeChildConfig options parent (some child)) o.name =
      if o.otype == "list" then
        some (jsConcat (jsOrEmptyList (cfgGet parent o.name))
          (jsOrEmptyList (cfgGet child o.name)))
      else some (jsSpreadVals (cfgGet parent o.name) (cfgGet child o.name)) := by
  obtain ⟨l₁, l₂, rfl⟩ := List.append_of_mem ho
  have hnames : (l₁.map OptionDef.name ++ o.name :: l₂.map OptionDef.name).Nodup := by
    simpa using hnodup
  have h₁ : ∀ o' ∈ l₁, o'.name ≠ o.name := by
    intro o' ho' he
    have : o.name ∈ l₁.map OptionDef.name := he ▸ List.mem_map_of_mem _ ho'
    exact (List.disjoint_of_nodup_append hnames) this (List.mem_cons_self _ _)
  have h₂ : ∀ o' ∈ l₂, o'.name ≠ o.name := by
    intro o' ho' he
    have hmem : o.name ∈ o.name :: l₂.map OptionDef.name :=
      List.mem_cons_of_mem _ (he ▸ List.mem_map_of_mem _ ho')
    have := (List.nodup_append.mp hnames).2.1
    exact (List.nodup_cons.mp this).1 (by
      have : o.name ∈ l₂.map OptionDef.name :=
        he ▸ List.mem_map_of_mem _ ho'
      exact this)
  show cfgGet (mergeOptions parent child (l₁ ++ o :: l₂) (spread parent child))
      o.name = _
  rw [mergeOptions_append]
  set cfg₁ := mergeOptions parent child l₁ (spread parent child) with hcfg₁
  have hget₁ : cfgGet cfg₁ o.name = cfgGet child o.name := by
    rw [hcfg₁, mergeOptions_get_of_not_mem _ _ _ _ _ h₁, cfgGet_spread]
    cases hcv : cfgGet child o.name with
    | none => rw [hcv] at hc; exact absurd hc (by simp [truthyOpt])
    | some v => simp [Option.orElse]
  show cfgGet (mergeOptions parent child l₂ _) o.name = _
  have hguard : (o.mergeable && truthyOpt (cfgGet child o.name)
      && truthyOpt (cfgGet parent o.name)) = true := by
    rw [hm, hc, hp]; rfl
  simp only [mergeOptions, hguard, if_true]
  rw [mergeOptions_get_of_not_mem _ _ _ _ _ h₂]
  split
  · rw [cfgGet_set_self, hget₁]
  · rw [cfgGet_set_self]

/-- C6: for a registry option marked mergeable whose key both parent and
child define (as truthy values): when the option is list-typed the merged
key holds the parent's list followed by the child's list (so an empty
child list returns the parent's list unchanged), and otherwise the merged
key holds the shallow object merge in which child fields override
same-named parent fields. -/
theorem mergeChildConfig_mergeable_spec (options : List OptionDef)
    (parentConfig childConfig : Config) (o : OptionDef)
    (hnodup : (options.map OptionDef.name).Nodup) (ho : o ∈ options)
    (hm : o.mergeable = true) :
    (∀ pl cl, o.otype = "list" →
      cfgGet parentConfig o.name = some (.list pl) →
      cfgGet childConfig o.name = some (.list cl) →
      cfgGet (mergeChildConfig options parentConfig (some childConfig)) o.name =
          some (.list (pl ++ cl)) ∧
        (cl = [] →
          cfgGet (mergeChildConfig options parentConfig (some childConfig)) o.name =
            cfgGet parentConfig o.name)) ∧
    ∀ pf cf, o.otype ≠ "list" →
      cfgGet parentConfig o.name = some (.obj pf) →
      cfgGet childConfig o.name = some (.obj cf) →
      cfgGet (mergeChildConfig options parentConfig (some childConfig)) o.name =
          some (.obj (spread pf cf)) ∧
        ∀ k, cfgGet (spread pf cf) k =
          (cfgGet cf k).orElse fun _ => cfgGet pf k := by
  constructor
  · intro pl cl hty hpv hcv
    have hmain := mergeChildConfig_get_mergeable options parentConfig childConfig o
      hnodup ho hm (by rw [hcv]; rfl) (by rw [hpv]; rfl)
    rw [hpv, hcv] at hmain
    rw [if_pos (by simp [hty])] at hmain
    have hval : jsConcat (jsOrEmptyList (some (.list pl)))
        (jsOrEmptyList (some (.list cl))) = .list (pl ++ cl) := rfl
    rw [hval] at hmain
    refine ⟨hmain, fun hnil => ?_⟩
    rw [hmain, hpv, hnil, List.append_nil]
  · intro pf cf hty hpv hcv
    have hmain := mergeChildConfig_get_mergeable options parentConfig childConfig o
      hnodup ho hm (by rw [hcv]; rfl) (by rw [hpv]; rfl)
    rw [hpv, hcv] at hmain
    rw [if_neg (by simp [hty])] at hmain
    have hval : jsSpreadVals (some (.obj pf)) (some (.obj cf)) =
        .obj (spread pf cf) := rfl
    rw [hval] at hmain
    exact ⟨hmain, fun k => cfgGet_spread pf cf k⟩

/-- Witness for C6 on a one-option registry with a mergeable list option,
including the empty-child-list case. -/
theorem mergeChildConfig_mergeable_spec_witness :
    cfgGet (mergeChildConfig [⟨"extends", "list", "package", true⟩]
        [("extends", .list [.str ":a"])] (some [("extends", .list [])]))
        "extends" =
      some (.list ([.str ":a"] ++ [])) :=
  ((mergeChildConfig_mergeable_spec [⟨"extends", "list", "package", true⟩]
      [("extends", .list [.str ":a"])] [("extends", .list [])]
      ⟨"extends", "list", "package", true⟩ (by decide) (by decide) rfl).1
    [.str ":a"] [] rfl rfl rfl).1

/-! ## C4: autodiscovery deduplication -/

theorem repoName_ok_of_ne_null (r : JValue) (h : r ≠ .null) :
    ∃ m, repoName r = .ok m := by
  cases r with
  | null => exact absurd rfl h
  | obj fields =>
    cases hv : cfgGet fields "repository" with
    | none => exact ⟨.obj fields, by simp [repoName, hv]⟩
    | some v => exact ⟨v, by simp [repoName, hv]⟩
  | str s => exact ⟨.str s, rfl⟩
  | bool b => exact ⟨.bool b, rfl⟩
  | num n => exact ⟨.num n, rfl⟩
  | list l => exact ⟨.list l, rfl⟩

theorem findConfigured_some_of_mem (l : List JValue) (n : JValue)
    (hnull : JValue.null ∉ l)
    (hex : ∃ r ∈ l, ∃ m, repoName r = .ok m ∧ jsStrictEq m n = true) :
    ∃ r, findConfigured l n = .ok (some r) := by
  induction l with
  | nil => obtain ⟨r, hr, _⟩ := hex; exact absurd hr (List.not_mem_nil r)
  | cons r₀ rest ih =>
    have hr₀ : r₀ ≠ .null := fun he => hnull (he ▸ List.mem_cons_self r₀ rest)
    obtain ⟨m₀, hm₀⟩ := repoName_ok_of_ne_null r₀ hr₀
    by_cases heq : jsStrictEq m₀ n = true
    · exact ⟨r₀, by simp [findConfigured, hm₀, heq, Bind.bind, Except.bind]⟩
    · have hrest : ∃ r ∈ rest, ∃ m, repoName r = .ok m ∧ jsStrictEq m n = true := by
        obtain ⟨r, hr, m, hm, hms⟩ := hex
        rcases List.mem_cons.mp hr with rfl | hr'
        · rw [hm₀] at hm
          cases hm
          exact absurd hms heq
        · exact ⟨r, hr', m, hm, hms⟩
      obtain ⟨r, hr⟩ := ih (fun hm => hnull (List.mem_cons_of_mem r₀ hm)) hrest
      exact ⟨r, by simp [findConfigured, hm₀, heq, Bind.bind, Except.bind, hr]⟩

theorem findConfigured_none_of_forall (l : List JValue) (n : JValue)
    (hnull : JValue.null ∉ l)
    (hall : ∀ r ∈ l, ∀ m, repoName r = .ok m → jsStrictEq m n = false) :
    findConfigured l n = .ok none := by
  induction l with
  | nil => rfl
  | cons r₀ rest ih =>
    have hr₀ : r₀ ≠ .null := fun he => hnull (he ▸ List.mem_cons_self r₀ rest)
    obtain ⟨m₀, hm₀⟩ := repoName_ok_of_ne_null r₀ hr₀
    have hne := hall r₀ (List.mem_cons_self r₀ rest) m₀ hm₀
    have hrest := ih (fun hm => hnull (List.mem_cons_of_mem r₀ hm))
      (fun r hr => hall r (List.mem_cons_of_mem r₀ hr))
    simp [findConfigured, hm₀, hne, Bind.bind, Except.bind, hrest]

/-- C4: in the autodiscovery loop, a discovered repository whose identifier
(`repository` field for objects, the entry itself otherwise) matches an
already-configured entry's identifier is dropped, leaving the configured
list unchanged; a discovered entry matching nothing (or with a falsy
identifier) is appended as-is; and for the configured entry
`{repository: "org/repo", extends: [":base"]}` and the discovered bare
entry `"org/repo"`, the merged list is exactly the one configured entry. -/
theorem mergeDiscovered_dedup :
    (∀ (l : List JValue) (repo : JValue) (rest : List JValue) (n : JValue),
      repoName repo = .ok n → truthy n = true → JValue.null ∉ l →
      (∃ r ∈ l, ∃ m, repoName r = .ok m ∧ jsStrictEq m n = true) →
      mergeDiscovered (.list l) (repo :: rest) = mergeDiscovered (.list l) rest) ∧
    (∀ (l : List JValue) (repo : JValue) (rest : List JValue) (n : JValue),
      repoName repo = .ok n →
      (truthy n = false ∨
        (JValue.null ∉ l ∧
          ∀ r ∈ l, ∀ m, repoName r = .ok m → jsStrictEq m n = false)) →
      mergeDiscovered (.list l) (repo :: rest) =
        mergeDiscovered (.list (l ++ [repo])) rest) ∧
    mergeDiscovered
        (.list [.obj [("repository", .str "org/repo"),
          ("extends", .list [.str ":base"])]])
        [.str "org/repo"] =
      .ok (.list [.obj [("repository", .str "org/repo"),
        ("extends", .list [.str ":base"])]]) := by
  refine ⟨?_, ?_, rfl⟩
  · intro l repo rest n hname htruthy hnull hex
    obtain ⟨r, hfind⟩ := findConfigured_some_of_mem l n hnull hex
    simp [mergeDiscovered, hname, htruthy, hfind, Bind.bind, Except.bind]
  · intro l repo rest n hname hcase
    rcases hcase with hfalsy | ⟨hnull, hall⟩
    · simp [mergeDiscovered, hname, hfalsy, Bind.bind, Except.bind, Pure.pure, Except.pure]
    · have hfind := findConfigured_none_of_forall l n hnull hall
      by_cases htruthy : truthy n = true
      · simp [mergeDiscovered, hname, htruthy, hfind, Bind.bind, Except.bind]
      · simp [mergeDiscovered, hname, Bool.eq_false_iff.mpr htruthy, Bind.bind,
          Except.bind, Pure.pure, Except.pure]

/-- Witness for C4's quantified parts at concrete inputs: the configured
`org/repo` object absorbs the discovered bare `"org/repo"`, and an
unmatched discovered entry is appended. -/
theorem mergeDiscovered_dedup_witness :
    mergeDiscovered
        (.list [.obj [("repository", .str "org/repo"),
          ("extends", .list [.str ":base"])]])
        [.str "org/repo"] =
      mergeDiscovered
        (.list [.obj [("repository", .str "org/repo"),
          ("extends", .list [.str ":base"])]]) [] ∧
    mergeDiscovered (.list [.str "a/b"]) [.str "c/d"] =
      mergeDiscovered (.list ([.str "a/b"] ++ [.str "c/d"])) [] :=
  ⟨mergeDiscovered_dedup.1
      [.obj [("repository", .str "org/repo"), ("extends", .list [.str ":base"])]]
      (.str "org/repo") [] (.str "org/repo") rfl rfl (by simp)
      ⟨.obj [("repository", .str "org/repo"), ("extends", .list [.str ":base"])],
        by simp, .str "org/repo", rfl, rfl⟩,
    mergeDiscovered_dedup.2.1 [.str "a/b"] (.str "c/d") [] (.str "c/d") rfl
      (Or.inr ⟨by simp, by
        intro r hr m hm
        rcases List.mem_cons.mp hr with rfl | hr'
        · cases hm; rfl
        · exact absurd hr' (List.not_mem_nil r)⟩)⟩

/-! ## C5: empty autodiscovery result -/

/-- C5: when autodiscovery is requested, validation passes, and the
platform listing returns zero repositories, `parseConfigs` does not throw
and returns the configuration exactly as it was — in particular its
`repositories` list is untouched. -/
theorem parseConfigs_empty_autodiscovery (env : Env) (d f c e : Config)
    (rcp : Config → Config) (gh gl vs : List JValue)
    (hok : checkPlatformToken env (rcp (mergedSources d f c e)) = .ok ())
    (hauto : truthyOpt (cfgGet (rcp (mergedSources d f c e)) "autodiscover") = true)
    (hempty : discoveredList (rcp (mergedSources d f c e)) gh gl vs = []) :
    parseConfigs env d f c e rcp gh gl vs = .ok (rcp (mergedSources d f c e)) := by
  simp [parseConfigs, hok, hauto, hempty]

/-- Witness for C5 on a concrete github configuration with an empty
repository listing. -/
theorem parseConfigs_empty_autodiscovery_witness :
    parseConfigs [] []
        [("platform", .str "github"), ("token", .str "t"),
          ("autodiscover", .bool true), ("repositories", .list [.str "a/b"])]
        [] [] id [] [] [] =
      .ok (id (mergedSources []
        [("platform", .str "github"), ("token", .str "t"),
          ("autodiscover", .bool true), ("repositories", .list [.str "a/b"])]
        [] [])) :=
  parseConfigs_empty_autodiscovery [] []
    [("platform", .str "github"), ("token", .str "t"),
      ("autodiscover", .bool true), ("repositories", .list [.str "a/b"])]
    [] [] id [] [] [] rfl rfl rfl

/-! ## C3: platform/token validation -/

theorem optStrictEqStr_iff (o : Option JValue) (s : String) :
    optStrictEqStr o s = true ↔ o = some (.str s) := by
  cases o with
  | none => simp [optStrictEqStr]
  | some v => cases v <;> simp [optStrictEqStr, jsStrictEq]

/-- `checkPlatformToken` errors exactly under the spec's fatal-validation
condition. -/
theorem checkPlatformToken_error_iff (env : Env) (config : Config) :
    (∃ m, checkPlatformToken env config = .error m) ↔
      specValidationError env config := by
  unfold checkPlatformToken specValidationError tokenAvailable
  by_cases h1 : optStrictEqStr (cfgGet config "platform") "github"
  · have hp := (optStrictEqStr_iff _ _).mp h1
    rw [if_pos h1]
    by_cases ht : (!truthyOpt (cfgGet config "token") &&
        !envTruthy env "GITHUB_TOKEN") = true
    · rw [if_pos ht]
      simp only [Bool.and_eq_true, Bool.not_eq_true'] at ht
      constructor
      · intro _
        exact Or.inr (Or.inl ⟨hp, by simp [ht.1, ht.2]⟩)
      · intro _
        exact ⟨"You need to supply a GitHub token.", rfl⟩
    · rw [if_neg ht]
      simp only [Bool.and_eq_true, Bool.not_eq_true', not_and] at ht
      constructor
      · rintro ⟨m, hm⟩
        exact absurd hm (by simp)
      · rintro (⟨hng, _, _⟩ | ⟨_, htok⟩ | ⟨hgl, _⟩ | ⟨hvs, _⟩)
        · exact absurd hp hng
        · refine absurd ?_ htok
          rcases Bool.eq_false_or_eq_true (truthyOpt (cfgGet config "token")) with
            htr | hf
          · exact Or.inl htr
          · exact Or.inr (by simpa using ht hf)
        · rw [hp] at hgl; exact absurd hgl (by simp)
        · rw [hp] at hvs; exact absurd hvs (by simp)
  · rw [if_neg h1]
    have hng : cfgGet config "platform" ≠ some (.str "github") := fun he =>
      h1 ((optStrictEqStr_iff _ _).mpr he)
    by_cases h2 : optStrictEqStr (cfgGet config "platform") "gitlab"
    · have hp := (optStrictEqStr_iff _ _).mp h2
      rw [if_pos h2]
      by_cases ht : (!truthyOpt (cfgGet config "token") &&
          !envTruthy env "GITLAB_TOKEN") = true
      · rw [if_pos ht]
        simp only [Bool.and_eq_true, Bool.not_eq_true'] at ht
        constructor
        · intro _
          exact Or.inr (Or.inr (Or.inl ⟨hp, by simp [ht.1, ht.2]⟩))
        · intro _
          exact ⟨"You need to supply a GitLab token.", rfl⟩
      · rw [if_neg ht]
        simp only [Bool.and_eq_true, Bool.not_eq_true', not_and] at ht
        constructor
        · rintro ⟨m, hm⟩
          exact absurd hm (by simp)
        · rintro (⟨_, hngl, _⟩ | ⟨hgh, _⟩ | ⟨_, htok⟩ | ⟨hvs, _⟩)
          · exact absurd hp hngl
          · exact absurd hgh hng
          · refine absurd ?_ htok
            rcases Bool.eq_false_or_eq_true (truthyOpt (cfgGet config "token")) with
              htr | hf
            · exact Or.inl htr
            · exact Or.inr (by simpa using ht hf)
          · rw [hp] at hvs; exact absurd hvs (by simp)
    · rw [if_neg h2]
      have hngl : cfgGet config "platform" ≠ some (.str "gitlab") := fun he =>
        h2 ((optStrictEqStr_iff _ _).mpr he)
      by_cases h3 : optStrictEqStr (cfgGet config "platform") "vsts"
      · have hp := (optStrictEqStr_iff _ _).mp h3
        rw [if_pos h3]
        by_cases ht : (!truthyOpt (cfgGet config "token") &&
            !envTruthy env "VSTS_TOKEN") = true
        · rw [if_pos ht]
          simp only [Bool.and_eq_true, Bool.not_eq_true'] at ht
          constructor
          · intro _
            exact Or.inr (Or.inr (Or.inr ⟨hp, by simp [ht.1, ht.2]⟩))
          · intro _
            exact ⟨"You need to supply a VSTS token.", rfl⟩
        · rw [if_neg ht]
          simp only [Bool.and_eq_true, Bool.not_eq_true', not_and] at ht
          constructor
          · rintro ⟨m, hm⟩
            exact absurd hm (by simp)
          · rintro (⟨_, _, hnvs⟩ | ⟨hgh, _⟩ | ⟨hgl, _⟩ | ⟨_, htok⟩)
            · exact absurd hp hnvs
            · exact absurd hgh hng
            · exact absurd hgl hngl
            · refine absurd ?_ htok
              rcases Bool.eq_false_or_eq_true
                  (truthyOpt (cfgGet config "token")) with htr | hf
              · exact Or.inl htr
              · exact Or.inr (by simpa using ht hf)
      · have hnvs : cfgGet config "platform" ≠ some (.str "vsts") := fun he =>
          h3 ((optStrictEqStr_iff _ _).mpr he)
        rw [if_neg h3]
        constructor
        · intro _
          exact Or.inl ⟨hng, hngl, hnvs⟩
        · intro _
          exact ⟨_, rfl⟩

theorem findConfigured_ok_of_no_null (l : List JValue) (n : JValue)
    (hnull : JValue.null ∉ l) :
    ∃ r, findConfigured l n = .ok r := by
  induction l with
  | nil => exact ⟨none, rfl⟩
  | cons r₀ rest ih =>
    have hr₀ : r₀ ≠ .null := fun he => hnull (he ▸ List.mem_cons_self r₀ rest)
    obtain ⟨m₀, hm₀⟩ := repoName_ok_of_ne_null r₀ hr₀
    by_cases heq : jsStrictEq m₀ n = true
    · exact ⟨some r₀, by simp [findConfigured, hm₀, heq, Bind.bind, Except.bind]⟩
    · obtain ⟨r, hr⟩ := ih (fun hm => hnull (List.mem_cons_of_mem r₀ hm))
      exact ⟨r, by simp [findConfigured, hm₀, heq, Bind.bind, Except.bind, hr]⟩

/-- Without `null` entries the autodiscovery loop never throws and yields
an array. -/
theorem mergeDiscovered_ok_of_no_null (ds : List JValue) (l : List JValue)
    (hl : JValue.null ∉ l) (hds : JValue.null ∉ ds) :
    ∃ l', mergeDiscovered (.list l) ds = .ok (.list l') := by
  induction ds generalizing l with
  | nil => exact ⟨l, rfl⟩
  | cons repo rest ih =>
    have hrepo : repo ≠ .null := fun he => hds (he ▸ List.mem_cons_self repo rest)
    have hrest : JValue.null ∉ rest := fun hm => hds (List.mem_cons_of_mem repo hm)
    obtain ⟨n, hn⟩ := repoName_ok_of_ne_null repo hrepo
    by_cases htruthy : truthy n = true
    · obtain ⟨found, hfind⟩ := findConfigured_ok_of_no_null l n hl
      cases found with
      | some r =>
        obtain ⟨l', hl'⟩ := ih l hl hrest
        exact ⟨l', by simp [mergeDiscovered, hn, htruthy, hfind, Bind.bind,
          Except.bind, hl']⟩
      | none =>
        have happ : JValue.null ∉ l ++ [repo] := by
          intro hm
          rcases List.mem_append.mp hm with hm | hm
          · exact hl hm
          · rcases List.mem_singleton.mp hm with rfl
            exact hrepo rfl
        obtain ⟨l', hl'⟩ := ih (l ++ [repo]) happ hrest
        exact ⟨l', by simp [mergeDiscovered, hn, htruthy, hfind, Bind.bind,
          Except.bind, hl']⟩
    · have happ : JValue.null ∉ l ++ [repo] := by
        intro hm
        rcases List.mem_append.mp hm with hm | hm
        · exact hl hm
        · rcases List.mem_singleton.mp hm with rfl
          exact hrepo rfl
      obtain ⟨l', hl'⟩ := ih (l ++ [repo]) happ hrest
      exact ⟨l', by simp [mergeDiscovered, hn, Bool.eq_false_iff.mpr htruthy,
        Bind.bind, Except.bind, Pure.pure, Except.pure, hl']⟩

/-- C3: `parseConfigs` throws exactly when the resolved platform is
unsupported or its credential is missing (under the standing assumption
that the autodiscovery inputs are well-formed, which rules out the
JavaScript `TypeError`s of the loop); and on that error path the result
does not depend on the platform repository listings — no listing call can
influence (or be required for) the error. -/
theorem parseConfigs_validation_error_iff (env : Env) (d f c e : Config)
    (rcp : Config → Config) (gh gl vs : List JValue)
    (hsafe : safeAutodiscover (rcp (mergedSources d f c e)) gh gl vs) :
    ((∃ m, parseConfigs env d f c e rcp gh gl vs = .error m) ↔
      specValidationError env (rcp (mergedSources d f c e))) ∧
    (specValidationError env (rcp (mergedSources d f c e)) →
      ∀ gh' gl' vs', parseConfigs env d f c e rcp gh gl vs =
        parseConfigs env d f c e rcp gh' gl' vs') := by
  set config := rcp (mergedSources d f c e) with hconfig
  cases hcp : checkPlatformToken env config with
  | error m =>
    have hparse : ∀ (gh' gl' vs' : List JValue),
        parseConfigs env d f c e rcp gh' gl' vs' = .error m := by
      intro gh' gl' vs'
      simp [parseConfigs, ← hconfig, hcp]
    have hspec : specValidationError env config :=
      (checkPlatformToken_error_iff env config).mp ⟨m, hcp⟩
    refine ⟨⟨fun _ => hspec, fun _ => ⟨m, hparse gh gl vs⟩⟩, ?_⟩
    intro _ gh' gl' vs'
    rw [hparse gh gl vs, hparse gh' gl' vs']
  | ok u =>
    cases u
    have hnospec : ¬specValidationError env config := fun hs => by
      obtain ⟨m, hm⟩ := (checkPlatformToken_error_iff env config).mpr hs
      rw [hcp] at hm
      exact Except.noConfusion hm
    have hnoerr : ¬∃ m, parseConfigs env d f c e rcp gh gl vs = .error m := by
      rintro ⟨m, hm⟩
      by_cases hauto : truthyOpt (cfgGet config "autodiscover") = true
      · obtain ⟨⟨l, hrepos, hlnull⟩, hdnull⟩ := hsafe hauto
        by_cases hempty : discoveredList config gh gl vs = []
        · rw [show parseConfigs env d f c e rcp gh gl vs = .ok config by
            simp [parseConfigs, ← hconfig, hcp, hauto, hempty]] at hm
          exact Except.noConfusion hm
        · obtain ⟨l', hl'⟩ := mergeDiscovered_ok_of_no_null
            (discoveredList config gh gl vs) l hlnull hdnull
          rw [show parseConfigs env d f c e rcp gh gl vs =
              finishParse rcp (cfgSet config "repositories" (.list l')) by
            simp [parseConfigs, ← hconfig, hcp, hauto,
              List.isEmpty_iff, hempty, hrepos, hl']] at hm
          exact Except.noConfusion hm
      · rw [show parseConfigs env d f c e rcp gh gl vs =
            finishParse rcp config by
          simp [parseConfigs, ← hconfig, hcp,
            Bool.eq_false_iff.mpr hauto]] at hm
        exact Except.noConfusion hm
    exact ⟨⟨fun he => absurd he hnoerr, fun hs => absurd hs hnospec⟩,
      fun hs => absurd hs hnospec⟩

/-- Witness for C3 at a concrete unsupported platform (`bitbucket`), with
autodiscovery off (so the safety hypothesis is vacuous). -/
theorem parseConfigs_validation_error_iff_witness :
    ((∃ m, parseConfigs [] [] [("platform", .str "bitbucket")] [] [] id [] [] [] =
        .error m) ↔
      specValidationError []
        (id (mergedSources [] [("platform", .str "bitbucket")] [] []))) ∧
    (specValidationError []
        (id (mergedSources [] [("platform", .str "bitbucket")] [] [])) →
      ∀ gh' gl' vs',
        parseConfigs [] [] [("platform", .str "bitbucket")] [] [] id [] [] [] =
          parseConfigs [] [] [("platform", .str "bitbucket")] [] [] id gh' gl' vs') :=
  parseConfigs_validation_error_iff [] [] [("platform", .str "bitbucket")] [] []
    id [] [] [] (fun hauto => by exact absurd hauto (by decide))

/-! ## C2: the transient logging keys -/

/-- C2 counterexample: on the zero-repository autodiscovery path
`parseConfigs` returns early, before the `delete config.logFile` /
`delete config.logFileLevel` lines, so the returned configuration still
holds `logFile` — refuting the claim that every successful return is free
of the logging-destination keys. -/
theorem parseConfigs_logFile_retained_cex :
    (parseConfigs [] []
        [("platform", .str "github"), ("token", .str "abc"),
          ("logFile", .str "log.txt"), ("logFileLevel", .str "debug"),
          ("autodiscover", .bool true), ("repositories", .list [])]
        [] [] id [] [] []).map
        (fun cfg => (cfgGet cfg "logFile", cfgGet cfg "logFileLevel")) =
      .ok (some (.str "log.txt"), some (.str "debug")) := rfl

theorem finishParse_no_log_keys (rcp : Config → Config) (cfg out : Config)
    (h : finishParse rcp cfg = .ok out) :
    cfgGet out "logFile" = none ∧ cfgGet out "logFileLevel" = none := by
  have hout : cfgErase (cfgErase (resolveRepos rcp cfg) "logFile")
      "logFileLevel" = out := by
    simpa [finishParse] using h
  subst hout
  constructor
  · rw [cfgGet_erase_ne _ _ _ (by decide)]
    exact cfgGet_erase_self _ _
  · exact cfgGet_erase_self _ _

/-- C2 amended: every successful `parseConfigs` return is free of the
`logFile` and `logFileLevel` keys, except on the early-return path where
autodiscovery is requested and the listing yields zero repositories — there
the keys are retained if a source set them. -/
theorem parseConfigs_strips_log_keys (env : Env) (d f c e : Config)
    (rcp : Config → Config) (gh gl vs : List JValue) (out : Config)
    (hout : parseConfigs env d f c e rcp gh gl vs = .ok out)
    (hpath :
      truthyOpt (cfgGet (rcp (mergedSources d f c e)) "autodiscover") = false ∨
        discoveredList (rcp (mergedSources d f c e)) gh gl vs ≠ []) :
    cfgGet out "logFile" = none ∧ cfgGet out "logFileLevel" = none := by
  set config := rcp (mergedSources d f c e) with hconfig
  cases hcp : checkPlatformToken env config with
  | error m =>
    rw [show parseConfigs env d f c e rcp gh gl vs = .error m by
      simp [parseConfigs, ← hconfig, hcp]] at hout
    exact Except.noConfusion hout
  | ok u =>
    cases u
    by_cases hauto : truthyOpt (cfgGet config "autodiscover") = true
    · have hne : discoveredList config gh gl vs ≠ [] := by
        rcases hpath with hfalse | hne
        · rw [hauto] at hfalse
          exact absurd hfalse (by simp)
        · exact hne
      cases hmd : mergeDiscovered ((cfgGet config "repositories").getD .null)
          (discoveredList config gh gl vs) with
      | error m =>
        rw [show parseConfigs env d f c e rcp gh gl vs = .error m by
          simp [parseConfigs, ← hconfig, hcp, hauto, List.isEmpty_iff, hne,
            hmd]] at hout
        exact Except.noConfusion hout
      | ok newRepos =>
        rw [show parseConfigs env d f c e rcp gh gl vs =
            finishParse rcp (cfgSet config "repositories" newRepos) by
          simp [parseConfigs, ← hconfig, hcp, hauto, List.isEmpty_iff, hne,
            hmd]] at hout
        exact finishParse_no_log_keys _ _ _ hout
    · rw [show parseConfigs env d f c e rcp gh gl vs = finishParse rcp config by
        simp [parseConfigs, ← hconfig, hcp, Bool.eq_false_iff.mpr hauto]] at hout
      exact finishParse_no_log_keys _ _ _ hout

/-- Witness for the amended C2 on a concrete run (autodiscovery off,
logging keys set by the file source). -/
theorem parseConfigs_strips_log_keys_witness :
    cfgGet [("platform", JValue.str "github"), ("token", JValue.str "abc"),
        ("repositories", JValue.list [])] "logFile" = none ∧
      cfgGet [("platform", JValue.str "github"), ("token", JValue.str "abc"),
        ("repositories", JValue.list [])] "logFileLevel" = none :=
  parseConfigs_strips_log_keys [] []
    [("platform", .str "github"), ("token", .str "abc"),
      ("logFile", .str "log.txt"), ("logFileLevel", .str "debug"),
      ("repositories", .list [])]
    [] [] id [] [] []
    [("platform", .str "github"), ("token", .str "abc"),
      ("repositories", .list [])]
    rfl (Or.inl rfl)

end RenovateConfig